import Mathlib

/-!
Verification development for the SAGA offer-notification bot
(`saga_bot.py`).  The Python source is shallowly embedded: pure string
manipulation is modelled on `List Char` / `String`, the untyped detail
dictionary (which the source only ever reads by key) as a partial map
`String → Option String`, the fetched offer dictionary as an association
list in page order, file contents as `String`, and the side-effecting
notification loop as a pure function returning an event trace.
-/

/- ### Python string primitives, modelled character by character -/

/-- The characters stripped by Python `str.strip()` with no argument
(ASCII whitespace). -/
def isPyWs (c : Char) : Bool :=
  c == ' ' || c == '\t' || c == '\n' || c == '\r' || c == '\x0b' || c == '\x0c'

/-- Strip characters satisfying `p` from both ends of a character list,
as Python `str.strip` does. -/
def stripBy (p : Char → Bool) (l : List Char) : List Char :=
  ((l.dropWhile p).reverse.dropWhile p).reverse

/-- Python `s.strip(c)` for a single-character argument. -/
def pyStrip (c : Char) (s : String) : String :=
  String.mk (stripBy (· == c) s.data)

/-- Python `s.strip()`. -/
def pyStripWs (s : String) : String :=
  String.mk (stripBy isPyWs s.data)

/-- Python `s.split(c)` on a character list: split at every occurrence of
`c`, keeping empty chunks; the empty list yields one empty chunk. -/
def splitCh (c : Char) : List Char → List (List Char)
  | [] => [[]]
  | a :: as =>
    match splitCh c as with
    | [] => [[]]
    | s :: ss => if a = c then [] :: s :: ss else (a :: s) :: ss

/-- Python `s.split(c)` for a single-character separator. -/
def pySplit (c : Char) (s : String) : List String :=
  (splitCh c s.data).map String.mk

/-- Python `l[-2]`: the second element counted from the end, `none` when
the list has fewer than two elements (Python raises there). -/
def idxNeg2 {α : Type} (l : List α) : Option α :=
  l.reverse[1]?

/-- Python `s.replace(pat, rep)` on character lists: replace all
non-overlapping occurrences, scanning left to right.  (The source only
uses non-empty patterns.) -/
def replaceChars (pat rep : List Char) : List Char → List Char
  | [] => []
  | a :: as =>
    if h : pat ≠ [] ∧ pat.isPrefixOf (a :: as) then
      rep ++ replaceChars pat rep ((a :: as).drop pat.length)
    else
      a :: replaceChars pat rep as
termination_by l => l.length
decreasing_by
  · simp only [List.length_drop, List.length_cons]
    exact Nat.sub_lt (Nat.succ_pos _) (List.length_pos.mpr h.1)
  · simp [Nat.lt_succ_self]

/-- Python `s.replace(pat, rep)`. -/
def pyReplace (s pat rep : String) : String :=
  String.mk (replaceChars pat.data rep.data s.data)

/-- Python `s.upper()` (character-wise upper-casing). -/
def pyUpper (s : String) : String :=
  String.mk (s.data.map Char.toUpper)

/-- Substring test (`pat in s` in Python), on character lists. -/
def containsSub (pat : List Char) : List Char → Bool
  | [] => pat.isEmpty
  | a :: as => pat.isPrefixOf (a :: as) || containsSub pat as

/-- Concatenation of the strings written by one Python loop of
`f.write(...)` calls. -/
def joinAll : List String → String
  | [] => ""
  | x :: xs => x ++ joinAll xs

/-- How the chunkings of two character lists combine when the lists are
appended: the last chunk of the first glues onto the first chunk of the
second. -/
def glueChunks : List (List Char) → List (List Char) → List (List Char)
  | [], ys => ys
  | [x], [] => [x]
  | [x], y :: ys => (x ++ y) :: ys
  | x :: y :: xs, ys => x :: glueChunks (y :: xs) ys

/- ### Python `sorted` on strings (lexicographic by code point) -/

/-- Insert a string into a lexicographically sorted list of strings.
String comparison is on the underlying character lists, exactly as
Python compares strings by code point. -/
def insertSorted (x : String) : List String → List String
  | [] => [x]
  | y :: ys => if x.data ≤ y.data then x :: y :: ys else y :: insertSorted x ys

/-- Python `sorted` on a list of strings (insertion sort; the order is
total, so the result agrees with any correct sort). -/
def sortStrings : List String → List String
  | [] => []
  | x :: xs => insertSorted x (sortStrings xs)

/- ### Data model (`saga_bot.py` lines 59-76) -/

/-- One listing entry as stored by `fetch_offers`:
`offers[offer_id] = {'url': full_url, 'title': title}`. -/
structure Offer where
  url : String
  title : String
deriving DecidableEq, Repr

/-- One anchor element matched on the listing page: its `href` attribute
and its visible text (`get_text(strip=True)`), the raw-HTML querying
being the external parsing capability. -/
structure Anchor where
  href : String
  text : String
deriving DecidableEq, Repr

/-- The queryable structure of one detail page, as produced by the
external HTML-parsing capability used in `parse_offer_details`:
for each `<dl>` the texts of its `dt` and `dd` elements, for each
`<table>` the cell texts of each row, and the optional description
block text. -/
structure DetailPage where
  dls : List (List String × List String)
  tables : List (List (List String))
  descText : Option String
deriving DecidableEq, Repr

/-- The detail dictionary `data` of `parse_offer_details`.  The source
only ever writes single keys and reads by key, so a Python dict is
embedded as a partial map. -/
def Dict : Type := String → Option String

/-- Python `data[k] = v` on the detail dictionary. -/
def dictInsert (d : Dict) (k v : String) : Dict :=
  fun q => if q = k then some v else d q

/- ### Persistent store (`saga_bot.py` lines 35-56) -/

/-- The line-set reading discipline shared by `load_known_offers` and
`load_subscribers` (lines 35-39 and 47-51): split the file into lines,
strip each, keep the non-blank ones, and form a set (deduplicated,
here in first-occurrence order since Python set order is unspecified). -/
def loadIdSet (content : String) : List String :=
  (((pySplit '\n' content).map pyStripWs).filter (fun s => s ≠ "")).dedup

/-- `load_subscribers` (lines 47-51), on the subscriber file content. -/
def load_subscribers (content : String) : List String :=
  loadIdSet content

/-- `save_known_offers` (lines 41-44): write each id of the set in
sorted order, one per line.  The file is opened with mode `w`, so the
result is the new file content, independent of the old one. -/
def save_known_offers (offers : List String) : String :=
  joinAll ((sortStrings offers).map (fun offer_id => offer_id ++ "\n"))

/-- The file content after `save_known_offers` runs against a file that
previously held `old`: mode `w` truncates, so `old` is discarded. -/
def known_file_after_save (_old : String) (offers : List String) : String :=
  save_known_offers offers

/-- `save_subscribers` (lines 53-56): same full-overwrite sorted write
as `save_known_offers`, on the subscriber file. -/
def save_subscribers (subscribers : List String) : String :=
  joinAll ((sortStrings subscribers).map (fun chat_id => chat_id ++ "\n"))

/-- The `/start` handler's subscription step (lines 211-218): load the
subscriber set from the file, and if the chat id is not yet present,
add it and save the whole set back.  Returns the new file content and
whether a new subscriber was added. -/
def start_subscribe (content : String) (chat_id : String) : String × Bool :=
  let subscribers := load_subscribers content
  if chat_id ∈ subscribers then (content, false)
  else (save_subscribers (chat_id :: subscribers), true)

/-- The cache-TTL reset at the top of `check_and_notify_loop`
(lines 185-189): a known-offers file is `some (mtime, content)`, a
missing file is `none`; if the file exists and its age exceeds 7 days
it is deleted. -/
def startup_cache (now : Int) (file : Option (Int × String)) :
    Option (Int × String) :=
  match file with
  | none => none
  | some (mtime, content) =>
    if now - mtime > 7 * 86400 then none else some (mtime, content)

/-- `load_known_offers` (lines 35-39) applied to the file state: a
missing file yields the empty set. -/
def load_known_offers (file : Option (Int × String)) : List String :=
  match file with
  | none => []
  | some (_, content) => loadIdSet content

/- ### Fetcher (`fetch_offers`, lines 59-76) -/

/-- Whether an anchor's href matches the detail-page selector
`a[href*="/immobiliensuche/immo-detail/"]`. -/
def href_is_detail (href : String) : Bool :=
  containsSub ("/immobiliensuche/immo-detail/".data) href.data

/-- The offer id derived in `fetch_offers` (lines 68-69):
`parts = href.strip('/').split('/'); offer_id = parts[-2]`.
The selector guarantees at least two segments, so the `none` case of
`idxNeg2` is unreachable and defaulted. -/
def fetch_offer_id (href : String) : String :=
  (idxNeg2 (pySplit '/' (pyStrip '/' href))).getD ""

/-- The dict update `offers[offer_id] = {...}` of `fetch_offers` on the
association-list embedding of the offers dict: overwrite in place if
the key exists, else append (Python dicts keep insertion order). -/
def dictUpd (d : List (String × Offer)) (k : String) (v : Offer) :
    List (String × Offer) :=
  if d.any (fun p => p.1 == k) then
    d.map (fun p => if p.1 == k then (k, v) else p)
  else d ++ [(k, v)]

/-- `fetch_offers` (lines 59-76) on the list of anchors found on the
listing page: for each anchor matching the detail selector, derive the
id, resolve the url against the site origin, and default an empty title
to the placeholder. -/
def fetch_offers (anchors : List Anchor) : List (String × Offer) :=
  anchors.foldl
    (fun offers a =>
      if href_is_detail a.href then
        dictUpd offers (fetch_offer_id a.href)
          ⟨"https://www.saga.hamburg" ++ a.href,
           if a.text = "" then "Neue Anzeige" else a.text⟩
      else offers)
    []

/- ### Detail extraction (`parse_offer_details`, lines 78-107) -/

/-- The definition-list pass (lines 85-90): for each `<dl>`, zip its
`dt` texts with its `dd` texts and store each pair with a non-empty
value. -/
def dlPass (dls : List (List String × List String)) (d : Dict) : Dict :=
  dls.foldl
    (fun d dl =>
      (List.zip dl.1 dl.2).foldl
        (fun d kv => if kv.2 ≠ "" then dictInsert d kv.1 kv.2 else d) d)
    d

/-- One table row (lines 94-99): rows with exactly two cells and a
non-empty second cell update the dictionary. -/
def rowUpd (d : Dict) (row : List String) : Dict :=
  match row with
  | [k, v] => if v ≠ "" then dictInsert d k v else d
  | _ => d

/-- The table pass (lines 92-99). -/
def tablePass (tables : List (List (List String))) (d : Dict) : Dict :=
  tables.foldl (fun d t => t.foldl rowUpd d) d

/-- The description pass (lines 101-105): a present, non-empty
description block is stored under the fixed label. -/
def descPass (descText : Option String) (d : Dict) : Dict :=
  match descText with
  | some t => if t ≠ "" then dictInsert d "Beschreibung" t else d
  | none => d

/-- `parse_offer_details` (lines 78-107): the three passes run in
source order over one shared dictionary, so a later write to a label
overwrites an earlier one. -/
def parse_offer_details (page : DetailPage) : Dict :=
  descPass page.descText (tablePass page.tables (dlPass page.dls (fun _ => none)))

/-- The value a two-cell row contributes for label `k` (mirrors
`rowUpd`). -/
def rowVal (k : String) (row : List String) : Option String :=
  match row with
  | [k', v] => if v ≠ "" ∧ k' = k then some v else none
  | _ => none

/-- The last value the rows of one table write for label `k`. -/
def rowsVal (k : String) : List (List String) → Option String
  | [] => none
  | r :: rs =>
    match rowsVal k rs with
    | some v => some v
    | none => rowVal k r

/-- The last value the table pass writes for label `k`: the value of
the last matching two-cell row across all tables. -/
def tablesVal (k : String) : List (List (List String)) → Option String
  | [] => none
  | t :: ts =>
    match tablesVal k ts with
    | some v => some v
    | none => rowsVal k t

/- ### Message formatting (`build_message`, lines 110-156) -/

/-- The `line` helper (lines 116-118): strip currency and unit symbols
from the value, trim it, and render one labelled line with a fixed
suffix. -/
def pyLine (emoji label value suffix : String) : String :=
  let v := pyStripWs (pyReplace (pyReplace value "€" "") "m²" "")
  pyStripWs (emoji ++ " *" ++ label ++ ":* " ++ v ++ suffix)

/-- The energy-class colour table (lines 121-127), including the
`.upper()` normalisation and the neutral default. -/
def energy_icon_of (energy_class : String) : String :=
  let u := pyUpper energy_class
  if u = "A+" ∨ u = "A" ∨ u = "B" then "🟢"
  else if u = "C" ∨ u = "D" then "🟡"
  else if u = "E" then "🟠"
  else if u = "F" ∨ u = "G" then "🔴"
  else "⚡️"

/-- The offer id recomputed inside `build_message` (line 113):
`url.split('/')[-2]`, with no stripping of the url. -/
def msg_offer_id (url : String) : String :=
  (idxNeg2 (pySplit '/' url)).getD ""

/-- One optional detail line: rendered only when the label is present
with a non-empty value (Python truthiness of `details.get(k)`). -/
def detLine (details : Dict) (k : String) (f : String → String) : List String :=
  let v := (details k).getD ""
  if v ≠ "" then [f v] else []

/-- The lines of `build_message` (lines 129-154), in source order. -/
def build_message_lines (data : Offer) (details : Dict) : List String :=
  let url := data.url
  let immomio_link := "https://tenant.immomio.com/de/apply/" ++ msg_offer_id url
  let energy_class := pyStripWs ((details "Energieeffizienzklasse").getD "")
  let energy_icon := energy_icon_of energy_class
  ["🏠 *" ++ data.title ++ "*"]
    ++ detLine details "Objektnummer" (fun v => pyLine "🆔" "Objektnummer" v "")
    ++ detLine details "Netto-Kaltmiete" (fun v => pyLine "💵" "Kaltmiete" v " €")
    ++ detLine details "Betriebskosten" (fun v => pyLine "💡" "Betriebskosten" v " €")
    ++ detLine details "Heizkosten" (fun v => pyLine "🔥" "Heizkosten" v " €")
    ++ detLine details "Gesamtmiete" (fun v => pyLine "💰" "Gesamtmiete" v " €")
    ++ detLine details "Wohnfläche ca." (fun v => pyLine "📐" "Wohnfläche" v " m²")
    ++ detLine details "Zimmer" (fun v => pyLine "🛏️" "Zimmer" v "")
    ++ detLine details "Etage" (fun v => pyLine "🏢" "Etage" v "")
    ++ detLine details "Verfügbar ab" (fun v => pyLine "📅" "Verfügbar ab" v "")
    ++ (if energy_class ≠ "" then
          [energy_icon ++ " *Energieklasse:* " ++ energy_class] else [])
    ++ [""]
    ++ ["🔗 [Anzeigen-Link](" ++ url ++ ")"]
    ++ ["📬 [Jetzt bewerben](" ++ immomio_link ++ ")"]

/-- `build_message` (lines 110-156). -/
def build_message (data : Offer) (details : Dict) : String :=
  String.intercalate "\n" (build_message_lines data details)

/- ### Notifier and poll cycle (lines 159-208) -/

/-- The new-offer diff of line 198:
`new = {oid: offer for oid, offer in offers.items() if oid not in seen}`.
A pure function of its two inputs, preserving the page order of the
fetched dict. -/
def newOffersOf (fetched : List (String × Offer)) (seen : List String) :
    List (String × Offer) :=
  fetched.filter (fun p => !(seen.contains p.1))

/-- Observable actions of one cycle: a detail-extraction attempt, a
logged extraction failure, a delivered message, and a logged delivery
failure.  Each event records the offer id it concerns. -/
inductive Event where
  | extractOffer (oid : String)
  | extractFailed (oid : String)
  | send (chat : String) (oid : String) (text : String)
  | sendFailed (chat : String) (oid : String)
deriving DecidableEq, Repr

/-- The offer id an event concerns. -/
def Event.oid : Event → String
  | .extractOffer o => o
  | .extractFailed o => o
  | .send _ o _ => o
  | .sendFailed _ o => o

/-- `notify_new_offers` (lines 159-181) as an event trace.  The detail
fetch is the external input `details` (`none` models the request or
parsing raising); `sendOk chat oid` models whether the Telegram send
succeeds.  An extraction failure is caught per offer, a send failure is
caught per subscriber, so the trace always extends past failures. -/
def notify_new_offers (details : String → Option DetailPage)
    (sendOk : String → String → Bool) (subsContent : String)
    (new : List (String × Offer)) : List Event :=
  let subscribers := load_subscribers subsContent
  if subscribers.isEmpty then []
  else
    new.flatMap (fun p =>
      match details p.1 with
      | none => [Event.extractOffer p.1, Event.extractFailed p.1]
      | some page =>
        let msg := build_message p.2 (parse_offer_details page)
        Event.extractOffer p.1 ::
          subscribers.map (fun chat =>
            if sendOk chat p.1 then Event.send chat p.1 msg
            else Event.sendFailed chat p.1))

/-- The offer ids in processing order of a trace (one `extractOffer`
event is emitted per offer processed). -/
def processedOrder (events : List Event) : List String :=
  events.filterMap (fun e =>
    match e with
    | .extractOffer oid => some oid
    | _ => none)

/-- Result of one iteration of the `while True` body of
`check_and_notify_loop` (lines 194-205): the event trace, the updated
in-memory known set, and the content written to the known-offers file
(`none` when no save happens). -/
structure CycleResult where
  events : List Event
  seen : List String
  fileWrite : Option String
deriving DecidableEq, Repr

/-- `seen.update(new)` (line 202): add each new offer id to the known
set (no duplicate is ever added to the list embedding of the set). -/
def seenUpdate (seen : List String) (new : List (String × Offer)) : List String :=
  new.foldl (fun s p => if s.contains p.1 then s else s ++ [p.1]) seen

/-- One successful iteration of the poll loop body (lines 196-205):
diff the fetched offers against `seen`; when something is new, notify,
update the in-memory set and save it; otherwise do nothing. -/
def cycle_body (details : String → Option DetailPage)
    (sendOk : String → String → Bool) (subsContent : String)
    (fetched : List (String × Offer)) (seen : List String) : CycleResult :=
  let new := newOffersOf fetched seen
  if new.isEmpty then ⟨[], seen, none⟩
  else
    ⟨notify_new_offers details sendOk subsContent new,
     seenUpdate seen new,
     some (save_known_offers (seenUpdate seen new))⟩

/- ### Helper lemmas: sorting -/

theorem perm_insertSorted (x : String) (l : List String) :
    (insertSorted x l).Perm (x :: l) := by
  induction l with
  | nil => simp [insertSorted]
  | cons y ys ih =>
    by_cases h : x.data ≤ y.data
    · simp [insertSorted, h]
    · simp only [insertSorted, if_neg h]
      exact (ih.cons y).trans (List.Perm.swap x y ys)

theorem perm_sortStrings (l : List String) : (sortStrings l).Perm l := by
  induction l with
  | nil => simp [sortStrings]
  | cons x xs ih =>
    exact (perm_insertSorted x (sortStrings xs)).trans (ih.cons x)

theorem mem_sortStrings {a : String} {l : List String} :
    a ∈ sortStrings l ↔ a ∈ l :=
  (perm_sortStrings l).mem_iff

theorem pairwise_insertSorted (x : String) {l : List String}
    (h : List.Pairwise (fun a b : String => a.data ≤ b.data) l) :
    List.Pairwise (fun a b : String => a.data ≤ b.data) (insertSorted x l) := by
  induction l with
  | nil => simp [insertSorted]
  | cons y ys ih =>
    rcases List.pairwise_cons.mp h with ⟨hy, hys⟩
    by_cases hxy : x.data ≤ y.data
    · simp only [insertSorted, if_pos hxy]
      refine List.pairwise_cons.mpr ⟨?_, h⟩
      intro z hz
      rcases List.mem_cons.mp hz with rfl | hz'
      · exact hxy
      · exact le_trans hxy (hy z hz')
    · simp only [insertSorted, if_neg hxy]
      refine List.pairwise_cons.mpr ⟨?_, ih hys⟩
      intro z hz
      rcases List.mem_cons.mp ((perm_insertSorted x ys).mem_iff.mp hz) with rfl | hz'
      · exact le_of_not_le hxy
      · exact hy z hz'

theorem sorted_sortStrings (l : List String) :
    List.Pairwise (fun a b : String => a.data ≤ b.data) (sortStrings l) := by
  induction l with
  | nil => simp [sortStrings]
  | cons x xs ih => exact pairwise_insertSorted x ih

/- ### Helper lemmas: splitting and stripping -/

theorem splitCh_ne_nil (c : Char) (l : List Char) : splitCh c l ≠ [] := by
  cases l with
  | nil => simp [splitCh]
  | cons a as =>
    cases h : splitCh c as with
    | nil => simp [splitCh, h]
    | cons s ss => by_cases hac : a = c <;> simp [splitCh, h, hac]

theorem splitCh_cons_self (c : Char) (l : List Char) :
    splitCh c (c :: l) = [] :: splitCh c l := by
  rcases List.exists_cons_of_ne_nil (splitCh_ne_nil c l) with ⟨s, ss, h⟩
  simp [splitCh, h]

theorem splitCh_append (c : Char) (l₁ l₂ : List Char) :
    splitCh c (l₁ ++ l₂) = glueChunks (splitCh c l₁) (splitCh c l₂) := by
  induction l₁ with
  | nil =>
    rcases List.exists_cons_of_ne_nil (splitCh_ne_nil c l₂) with ⟨y, ys, h⟩
    simp [splitCh, glueChunks, h]
  | cons a as ih =>
    rcases List.exists_cons_of_ne_nil (splitCh_ne_nil c as) with ⟨s, ss, hs⟩
    by_cases hac : a = c
    · rw [List.cons_append, hac, splitCh_cons_self c (as ++ l₂), ih,
        splitCh_cons_self c as, hs]
      rfl
    · rw [List.cons_append]
      cases ss with
      | nil =>
        rcases List.exists_cons_of_ne_nil (splitCh_ne_nil c l₂) with ⟨y, ys, hy⟩
        simp [splitCh, ih, hs, hy, hac, glueChunks]
      | cons s' ss' =>
        simp [splitCh, ih, hs, hac, glueChunks]

theorem glueChunks_cons_nil (x : List Char) (xs S : List (List Char)) :
    glueChunks (x :: xs) ([] :: S) = (x :: xs) ++ S := by
  induction xs generalizing x with
  | nil => simp [glueChunks]
  | cons y ys ih => simp [glueChunks, ih y]

theorem splitCh_not_mem {c : Char} {l : List Char} (h : c ∉ l) :
    splitCh c l = [l] := by
  induction l with
  | nil => simp [splitCh]
  | cons a as ih =>
    have ha : a ≠ c := by rintro rfl; exact h (List.mem_cons_self _ _)
    have has : c ∉ as := fun m => h (List.mem_cons_of_mem a m)
    simp [splitCh, ih has, ha]

theorem splitCh_dropWhile (c : Char) (l : List Char) :
    ∃ k, splitCh c l =
      List.replicate k [] ++ splitCh c (l.dropWhile (· == c)) := by
  induction l with
  | nil => exact ⟨0, by simp⟩
  | cons a as ih =>
    by_cases hac : a = c
    · subst hac
      rcases ih with ⟨k, hk⟩
      refine ⟨k + 1, ?_⟩
      rw [splitCh_cons_self, hk]
      simp [List.dropWhile_cons, List.replicate_succ]
    · exact ⟨0, by simp [List.dropWhile_cons, hac]⟩

theorem not_mem_of_mem_splitCh {c : Char} :
    ∀ {l s : List Char}, s ∈ splitCh c l → c ∉ s := by
  intro l
  induction l with
  | nil =>
    intro s hs
    simp [splitCh] at hs
    subst hs
    simp
  | cons a as ih =>
    intro s hs
    rcases List.exists_cons_of_ne_nil (splitCh_ne_nil c as) with ⟨t, ts, ht⟩
    by_cases hac : a = c
    · subst hac
      rw [splitCh_cons_self] at hs
      rcases List.mem_cons.mp hs with rfl | hs'
      · simp
      · exact ih hs'
    · simp only [splitCh, ht, if_neg hac] at hs
      rcases List.mem_cons.mp hs with rfl | hs'
      · have htm : t ∈ splitCh c as := ht.symm ▸ List.mem_cons_self _ _
        have hct := ih htm
        simp only [List.mem_cons, not_or]
        exact ⟨fun e => hac e.symm, hct⟩
      · exact ih (ht.symm ▸ List.mem_cons_of_mem _ hs')

theorem idxNeg2_append {α : Type} (A B : List α) (h : 2 ≤ B.length) :
    idxNeg2 (A ++ B) = idxNeg2 B := by
  unfold idxNeg2
  rw [List.reverse_append, List.getElem?_append]
  have h' : 1 < B.reverse.length := by
    rw [List.length_reverse]; omega
  rw [if_pos h']

theorem idxNeg2_map {α β : Type} (f : α → β) (l : List α) :
    idxNeg2 (l.map f) = (idxNeg2 l).map f := by
  unfold idxNeg2
  rw [← List.map_reverse, List.getElem?_map]

theorem dropWhile_eq_self_of_head {p : Char → Bool} {l : List Char}
    (h : ∀ a, l.head? = some a → p a = false) :
    l.dropWhile p = l := by
  cases l with
  | nil => rfl
  | cons a as =>
    have := h a rfl
    simp [List.dropWhile_cons, this]

theorem getLast?_dropWhile {p : Char → Bool} : ∀ {l : List Char},
    l.dropWhile p ≠ [] → (l.dropWhile p).getLast? = l.getLast? := by
  intro l
  induction l with
  | nil => intro h; simp at h
  | cons a as ih =>
    intro h
    by_cases hp : p a = true
    · rw [List.dropWhile_cons, if_pos hp] at h ⊢
      have has : as ≠ [] := by
        intro e; rw [e] at h; simp at h
      rw [ih h]
      rcases List.exists_cons_of_ne_nil has with ⟨b, bs, rfl⟩
      rw [List.getLast?_cons_cons]
    · rw [List.dropWhile_cons, if_neg hp]

theorem mem_of_mem_stripBy {p : Char → Bool} {a : Char} {l : List Char}
    (h : a ∈ stripBy p l) : a ∈ l := by
  unfold stripBy at h
  rw [List.mem_reverse] at h
  have h1 := (List.dropWhile_sublist p).subset h
  rw [List.mem_reverse] at h1
  exact (List.dropWhile_sublist p).subset h1

theorem pySplit_joinAll_lines (l : List String)
    (h : ∀ x ∈ l, ('\n') ∉ x.data) :
    pySplit '\n' (joinAll (l.map (fun s => s ++ "\n"))) = l ++ [""] := by
  induction l with
  | nil => rfl
  | cons x xs ih =>
    have hx : ('\n') ∉ x.data := h x (List.mem_cons_self _ _)
    have hxs : ∀ y ∈ xs, ('\n') ∉ y.data :=
      fun y hy => h y (List.mem_cons_of_mem _ hy)
    have hdata : (joinAll ((x :: xs).map (fun s => s ++ "\n"))).data
        = x.data ++ '\n' :: (joinAll (xs.map (fun s => s ++ "\n"))).data := by
      simp [joinAll, String.data_append]
    unfold pySplit
    rw [hdata, splitCh_append, splitCh_not_mem hx, splitCh_cons_self,
      glueChunks_cons_nil]
    have ihx := ih hxs
    unfold pySplit at ihx
    simp only [List.map_append, ihx]
    simp

theorem mem_loadIdSet_no_newline {content x : String}
    (h : x ∈ loadIdSet content) : ('\n') ∉ x.data := by
  unfold loadIdSet at h
  rw [List.mem_dedup] at h
  rcases List.mem_filter.mp h with ⟨hmem, _⟩
  rcases List.mem_map.mp hmem with ⟨y, hy, rfl⟩
  unfold pySplit at hy
  rcases List.mem_map.mp hy with ⟨chunk, hchunk, rfl⟩
  intro hmem2
  exact not_mem_of_mem_splitCh hchunk (mem_of_mem_stripBy hmem2)

/- ### Helper lemmas: detail extraction -/

theorem rowUpd_get (d : Dict) (row : List String) (k : String) :
    rowUpd d row k =
      match rowVal k row with
      | some v => some v
      | none => d k := by
  cases row with
  | nil => rfl
  | cons a tl =>
    cases tl with
    | nil => rfl
    | cons b tl2 =>
      cases tl2 with
      | cons c tl3 => rfl
      | nil =>
        by_cases hb : b = ""
        · simp [rowUpd, rowVal, hb]
        · by_cases hk : a = k
          · subst hk
            simp [rowUpd, rowVal, hb, dictInsert]
          · have hk' : ¬(k = a) := fun e => hk e.symm
            simp [rowUpd, rowVal, hb, hk, hk', dictInsert]

theorem foldl_rowUpd_get (rows : List (List String)) :
    ∀ (d : Dict) (k : String),
    (rows.foldl rowUpd d) k =
      match rowsVal k rows with
      | some v => some v
      | none => d k := by
  induction rows with
  | nil => intro d k; rfl
  | cons r rs ih =>
    intro d k
    rw [List.foldl_cons, ih]
    cases h : rowsVal k rs with
    | some v => simp [rowsVal, h]
    | none =>
      simp only [rowsVal, h]
      exact rowUpd_get d r k

theorem tablePass_get (tables : List (List (List String))) :
    ∀ (d : Dict) (k : String),
    tablePass tables d k =
      match tablesVal k tables with
      | some v => some v
      | none => d k := by
  induction tables with
  | nil => intro d k; rfl
  | cons t ts ih =>
    intro d k
    have hstep : tablePass (t :: ts) d = tablePass ts (t.foldl rowUpd d) := rfl
    rw [hstep, ih]
    cases h : tablesVal k ts with
    | some v => simp [tablesVal, h]
    | none =>
      simp only [tablesVal, h]
      exact foldl_rowUpd_get t d k

theorem descPass_get_ne (o : Option String) (d : Dict) {k : String}
    (h : k ≠ "Beschreibung") : descPass o d k = d k := by
  cases o with
  | none => rfl
  | some t =>
    by_cases ht : t = ""
    · simp [descPass, ht]
    · simp [descPass, ht, dictInsert, h]

/- ### Helper lemmas: notifier and cycle -/

theorem notify_event_oid {details : String → Option DetailPage}
    {sendOk : String → String → Bool} {subsContent : String}
    {new : List (String × Offer)} {e : Event}
    (h : e ∈ notify_new_offers details sendOk subsContent new) :
    e.oid ∈ new.map Prod.fst := by
  by_cases hsub : (load_subscribers subsContent).isEmpty = true
  · simp [notify_new_offers, hsub] at h
  · rw [Bool.not_eq_true] at hsub
    simp only [notify_new_offers, hsub, Bool.false_eq_true, if_false] at h
    rcases List.mem_flatMap.mp h with ⟨p, hp, he⟩
    cases hd : details p.1 with
    | none =>
      rw [hd] at he
      simp at he
      rcases he with rfl | rfl
      · exact List.mem_map_of_mem Prod.fst hp
      · exact List.mem_map_of_mem Prod.fst hp
    | some page =>
      rw [hd] at he
      simp at he
      rcases he with rfl | ⟨chat, _, rfl⟩
      · exact List.mem_map_of_mem Prod.fst hp
      · by_cases hs : sendOk chat p.1 = true <;>
          simp [hs, Event.oid] <;> exact ⟨p.2, hp⟩

theorem mem_seenUpdate :
    ∀ (new : List (String × Offer)) (seen : List String) (x : String),
    x ∈ seenUpdate seen new ↔ x ∈ seen ∨ x ∈ new.map Prod.fst := by
  intro new
  induction new with
  | nil => intro seen x; simp [seenUpdate]
  | cons p ps ih =>
    intro seen x
    have hstep : seenUpdate seen (p :: ps)
        = seenUpdate (if seen.contains p.1 then seen else seen ++ [p.1]) ps := rfl
    rw [hstep, ih]
    by_cases hc : seen.contains p.1 = true
    · have hmem : p.1 ∈ seen := by simpa using hc
      simp only [if_pos hc, List.map_cons, List.mem_cons]
      constructor
      · tauto
      · rintro (h | rfl | h) <;> tauto
    · simp only [if_neg hc, List.map_cons, List.mem_cons, List.mem_append,
        List.mem_singleton]
      tauto

theorem processedOrder_append (A B : List Event) :
    processedOrder (A ++ B) = processedOrder A ++ processedOrder B :=
  List.filterMap_append A B _

/- ### Claim theorems -/

/-- Claim C1: for every fetched offer map and every known-offer set, the
new-offer diff is exactly the fetched entries whose id is not in the
known set (as a pure function of its inputs), and every event of a
cycle — extraction, rendering/delivery, or their logged failures —
concerns an offer id that was absent from the known set at diff time. -/
theorem new_offer_diff_and_gating (fetched : List (String × Offer))
    (seen : List String) :
    (∀ p, p ∈ newOffersOf fetched seen ↔ p ∈ fetched ∧ p.1 ∉ seen) ∧
    (∀ details sendOk subsContent e,
      e ∈ (cycle_body details sendOk subsContent fetched seen).events →
        e.oid ∉ seen) := by
  constructor
  · intro p
    rw [newOffersOf, List.mem_filter]
    constructor
    · rintro ⟨h1, h2⟩
      refine ⟨h1, fun hmem => ?_⟩
      simp [hmem] at h2
    · rintro ⟨h1, h2⟩
      refine ⟨h1, ?_⟩
      simpa using h2
  · intro details sendOk subsContent e he
    have hoid : e.oid ∈ (newOffersOf fetched seen).map Prod.fst := by
      by_cases hnew : (newOffersOf fetched seen).isEmpty = true
      · simp [cycle_body, hnew] at he
      · rw [Bool.not_eq_true] at hnew
        simp only [cycle_body, hnew, Bool.false_eq_true, if_false] at he
        exact notify_event_oid he
    rcases List.mem_map.mp hoid with ⟨p, hp, hpe⟩
    rcases List.mem_filter.mp hp with ⟨_, h2⟩
    intro hcon
    rw [← hpe] at hcon
    simp [hcon] at h2

/-- Closed instance of C1 at a concrete cycle. -/
theorem new_offer_diff_and_gating_witness :
    (Event.extractOffer "5678").oid ∉ (["1234"] : List String) :=
  (new_offer_diff_and_gating [("5678", ⟨"u", "t"⟩)] ["1234"]).2
    (fun _ => none) (fun _ _ => true) "111\n" (Event.extractOffer "5678")
    (by decide)

/-- Claim C9: a cycle whose fetched offer-id set equals the current
known set produces no events (no extraction, no delivery) and leaves
both the in-memory and the persisted known set untouched. -/
theorem cycle_idempotent_unchanged (details : String → Option DetailPage)
    (sendOk : String → String → Bool) (subsContent : String)
    (fetched : List (String × Offer)) (seen : List String)
    (h : ∀ x, x ∈ fetched.map Prod.fst ↔ x ∈ seen) :
    cycle_body details sendOk subsContent fetched seen = ⟨[], seen, none⟩ := by
  have hnil : newOffersOf fetched seen = [] := by
    rw [newOffersOf, List.filter_eq_nil_iff]
    intro p hp
    have hmem : p.1 ∈ seen := (h p.1).mp (List.mem_map_of_mem Prod.fst hp)
    simp [hmem]
  simp [cycle_body, hnil]

/-- Closed instance of C9 at a concrete unchanged listing. -/
theorem cycle_idempotent_unchanged_witness :
    cycle_body (fun _ => none) (fun _ _ => true) "111\n"
      [("7", ⟨"u", "t"⟩)] ["7"] = ⟨[], ["7"], none⟩ :=
  cycle_idempotent_unchanged (fun _ => none) (fun _ _ => true) "111\n"
    [("7", ⟨"u", "t"⟩)] ["7"] (fun x => Iff.rfl)

/-- Claim C10: when a cycle has new offers, every new offer's id —
including the ids of offers whose detail extraction failed — is added
to the in-memory known set, the whole set is saved, the id appears in
the saved sorted sequence, and no later diff against the updated set
ever reports that id as new again. -/
theorem cycle_marks_all_new (details : String → Option DetailPage)
    (sendOk : String → String → Bool) (subsContent : String)
    (fetched : List (String × Offer)) (seen : List String) (oid : String)
    (h : oid ∈ (newOffersOf fetched seen).map Prod.fst) :
    oid ∈ (cycle_body details sendOk subsContent fetched seen).seen ∧
    (cycle_body details sendOk subsContent fetched seen).fileWrite
      = some (save_known_offers
          (cycle_body details sendOk subsContent fetched seen).seen) ∧
    oid ∈ sortStrings (cycle_body details sendOk subsContent fetched seen).seen ∧
    (∀ fetched2 p, p ∈ newOffersOf fetched2
        (cycle_body details sendOk subsContent fetched seen).seen →
        p.1 ≠ oid) := by
  have hne : (newOffersOf fetched seen).isEmpty = false := by
    rcases List.mem_map.mp h with ⟨p, hp, _⟩
    exact List.isEmpty_eq_false.mpr (List.ne_nil_of_mem hp)
  have hseen : (cycle_body details sendOk subsContent fetched seen).seen
      = seenUpdate seen (newOffersOf fetched seen) := by
    simp [cycle_body, hne]
  have hfw : (cycle_body details sendOk subsContent fetched seen).fileWrite
      = some (save_known_offers (seenUpdate seen (newOffersOf fetched seen))) := by
    simp [cycle_body, hne]
  have hmem : oid ∈ seenUpdate seen (newOffersOf fetched seen) :=
    (mem_seenUpdate _ _ _).mpr (Or.inr h)
  refine ⟨?_, ?_, ?_, ?_⟩
  · rw [hseen]; exact hmem
  · rw [hfw, hseen]
  · rw [hseen]; exact mem_sortStrings.mpr hmem
  · intro fetched2 p hp he
    rcases List.mem_filter.mp hp with ⟨_, h2⟩
    rw [he] at h2
    have hnotin : oid ∉ (cycle_body details sendOk subsContent fetched seen).seen := by
      simpa using h2
    exact hnotin (by rw [hseen]; exact hmem)

/-- Closed instance of C10: the extraction for "5678" raises, yet the
id is added to the set and saved. -/
theorem cycle_marks_all_new_witness :
    ("5678" : String) ∈ (cycle_body (fun _ => none) (fun _ _ => true) "111\n"
        [("5678", ⟨"u", "t"⟩)] ["1234"]).seen ∧
    (cycle_body (fun _ => none) (fun _ _ => true) "111\n"
        [("5678", ⟨"u", "t"⟩)] ["1234"]).fileWrite
      = some (save_known_offers
          (cycle_body (fun _ => none) (fun _ _ => true) "111\n"
            [("5678", ⟨"u", "t"⟩)] ["1234"]).seen) := by
  have h := cycle_marks_all_new (fun _ => none) (fun _ _ => true) "111\n"
    [("5678", ⟨"u", "t"⟩)] ["1234"] "5678" (by decide)
  exact ⟨h.1, h.2.1⟩

/-- Claim C2: within one offer's notification, every subscriber is
attempted in sequence; a failing send is recorded (logged) in place and
does not remove any later subscriber's delivery, and the notify
operation is total (it never raises). -/
theorem notify_send_failure_isolated
    (details : String → Option DetailPage) (sendOk : String → String → Bool)
    (subsContent oid : String) (offer : Offer) (page : DetailPage)
    (hd : details oid = some page)
    (hs : load_subscribers subsContent ≠ []) :
    notify_new_offers details sendOk subsContent [(oid, offer)] =
      Event.extractOffer oid ::
        (load_subscribers subsContent).map (fun chat =>
          if sendOk chat oid then
            Event.send chat oid (build_message offer (parse_offer_details page))
          else Event.sendFailed chat oid) := by
  have hne : (load_subscribers subsContent).isEmpty = false :=
    List.isEmpty_eq_false.mpr hs
  simp [notify_new_offers, hne, hd]

/-- Closed instance of C2: three subscribers, the second send fails,
the first and third still receive the message. -/
theorem notify_send_failure_isolated_witness :
    notify_new_offers (fun _ => some ⟨[], [], none⟩)
      (fun chat _ => chat != "222") "111\n222\n333\n"
      [("5678", ⟨"https://x.y/a/b", "T"⟩)]
      = [Event.extractOffer "5678",
         Event.send "111" "5678"
           (build_message ⟨"https://x.y/a/b", "T"⟩
             (parse_offer_details ⟨[], [], none⟩)),
         Event.sendFailed "222" "5678",
         Event.send "333" "5678"
           (build_message ⟨"https://x.y/a/b", "T"⟩
             (parse_offer_details ⟨[], [], none⟩))] := by
  have h := notify_send_failure_isolated (fun _ => some ⟨[], [], none⟩)
    (fun chat _ => chat != "222") "111\n222\n333\n" "5678"
    ⟨"https://x.y/a/b", "T"⟩ ⟨[], [], none⟩ rfl (by decide)
  rw [h]
  decide

/-- Claim C3: when the same label is written by more than one
extraction pass, the pass that runs later in the fixed sequence wins:
a label produced by the table pass overrides any definition-list value
for it, and a non-empty description block overrides any earlier value
stored under the description label. -/
theorem detail_merge_last_pass_wins (page : DetailPage) :
    (∀ k v, k ≠ "Beschreibung" → tablesVal k page.tables = some v →
      parse_offer_details page k = some v) ∧
    (∀ t, page.descText = some t → t ≠ "" →
      parse_offer_details page "Beschreibung" = some t) := by
  constructor
  · intro k v hk htv
    unfold parse_offer_details
    rw [descPass_get_ne _ _ hk, tablePass_get, htv]
  · intro t ht hne
    unfold parse_offer_details
    rw [ht]
    simp [descPass, hne, dictInsert]

/-- Closed instance of C3: "Zimmer" appears in a definition list with
value "2 Zimmer" and in a two-column table row with value "3 Zimmer";
the table's value is the one in the merged result. -/
theorem detail_merge_last_pass_wins_witness :
    parse_offer_details
      ⟨[(["Zimmer"], ["2 Zimmer"])], [[["Zimmer", "3 Zimmer"]]], none⟩
      "Zimmer" = some "3 Zimmer" :=
  (detail_merge_last_pass_wins
      ⟨[(["Zimmer"], ["2 Zimmer"])], [[["Zimmer", "3 Zimmer"]]], none⟩).1
    "Zimmer" "3 Zimmer" (by decide) (by decide)

/-- Claim C4: saving a known-offer set writes exactly the set's ids,
one per line, in ascending lexicographic order, and the write is a
full overwrite of whatever the file held before. -/
theorem save_known_offers_sorted_lines (offers : List String)
    (hnl : ∀ s ∈ offers, ('\n') ∉ s.data) :
    pySplit '\n' (save_known_offers offers) = sortStrings offers ++ [""] ∧
    List.Pairwise (fun a b : String => a.data ≤ b.data) (sortStrings offers) ∧
    (sortStrings offers).Perm offers ∧
    (∀ old, known_file_after_save old offers = save_known_offers offers) := by
  refine ⟨?_, sorted_sortStrings offers, perm_sortStrings offers,
    fun old => rfl⟩
  apply pySplit_joinAll_lines
  intro x hx
  exact hnl x (mem_sortStrings.mp hx)

/-- Closed instance of C4: saving the set with ids "42", "3", "7"
yields the lines "3", "42", "7" in that order (plus the empty chunk
after the final newline). -/
theorem save_known_offers_sorted_lines_witness :
    pySplit '\n' (save_known_offers ["42", "3", "7"]) = ["3", "42", "7", ""] :=
  (save_known_offers_sorted_lines ["42", "3", "7"] (by decide)).1.trans
    (by decide)

/-- Claim C5: at process start, a known-offers file whose age exceeds
7 days is deleted before loading, the load then yields the empty set,
and every fetched id is subsequently new; a file of age at most 7 days
is kept untouched. -/
theorem cache_ttl_reset_startup (now mtime : Int) (content : String) :
    (now - mtime > 7 * 86400 →
      startup_cache now (some (mtime, content)) = none ∧
      load_known_offers (startup_cache now (some (mtime, content))) = [] ∧
      ∀ fetched, newOffersOf fetched
        (load_known_offers (startup_cache now (some (mtime, content))))
        = fetched) ∧
    (now - mtime ≤ 7 * 86400 →
      startup_cache now (some (mtime, content)) = some (mtime, content)) := by
  constructor
  · intro h
    have hs : startup_cache now (some (mtime, content)) = none := by
      simp only [startup_cache]
      rw [if_pos h]
    refine ⟨hs, ?_, ?_⟩
    · rw [hs]; rfl
    · intro fetched
      rw [hs]
      show newOffersOf fetched [] = fetched
      rw [newOffersOf]
      apply List.filter_eq_self.mpr
      intro a _
      rfl
  · intro h
    have hng : ¬(now - mtime > 7 * 86400) := not_lt.mpr h
    simp only [startup_cache]
    rw [if_neg hng]

/-- Closed instance of C5: a file of age 604900 s (over 7 days) holding
id "1111" is discarded, and "1111" is new in the next cycle. -/
theorem cache_ttl_reset_startup_witness :
    load_known_offers (startup_cache 604900 (some (0, "1111\n"))) = [] ∧
    newOffersOf [("1111", ⟨"u", "t"⟩)]
      (load_known_offers (startup_cache 604900 (some (0, "1111\n"))))
      = [("1111", ⟨"u", "t"⟩)] := by
  have h := (cache_ttl_reset_startup 604900 0 "1111\n").1 (by decide)
  exact ⟨h.2.1, h.2.2 [("1111", ⟨"u", "t"⟩)]⟩

/-- Claim C6 counterexample: registering subscriber "a" into a store
holding "b" yields the file "a\nb\n".  The old content "b\n" is not a
prefix of the new content, so the store is rewritten wholesale, not
appended to. -/
theorem subscribe_not_append_only_counterexample :
    (start_subscribe "b\n" "a").1 = "a\nb\n" ∧
    (start_subscribe "b\n" "a").1 ≠ "b\n" ++ "a\n" ∧
    (("b\n" : String).data.isPrefixOf ((start_subscribe "b\n" "a").1).data)
      = false := by
  decide

/-- Claim C6 amended: registering a new subscriber rewrites the whole
subscriber file as the sorted set of all subscriber ids, one per line;
every previously stored id is preserved in the rewritten file and the
new id is added, but the write is a full overwrite, not an append. -/
theorem subscribe_rewrites_whole_file (content chat_id : String)
    (hmem : chat_id ∉ load_subscribers content)
    (hnl : ('\n') ∉ chat_id.data) :
    pySplit '\n' (start_subscribe content chat_id).1
      = sortStrings (chat_id :: load_subscribers content) ++ [""] ∧
    (∀ x ∈ load_subscribers content,
      x ∈ sortStrings (chat_id :: load_subscribers content)) ∧
    chat_id ∈ sortStrings (chat_id :: load_subscribers content) := by
  have h1 : (start_subscribe content chat_id).1
      = save_subscribers (chat_id :: load_subscribers content) := by
    simp [start_subscribe, hmem]
  refine ⟨?_, ?_, ?_⟩
  · rw [h1]
    apply pySplit_joinAll_lines
    intro x hx
    rcases List.mem_cons.mp (mem_sortStrings.mp hx) with rfl | hx'
    · exact hnl
    · exact mem_loadIdSet_no_newline hx'
  · intro x hx
    exact mem_sortStrings.mpr (List.mem_cons_of_mem _ hx)
  · exact mem_sortStrings.mpr (List.mem_cons_self _ _)

/-- Closed instance of the amended C6: adding "a" to the store holding
"b" produces the full rewritten line sequence "a", "b". -/
theorem subscribe_rewrites_whole_file_witness :
    pySplit '\n' (start_subscribe "b\n" "a").1 = ["a", "b", ""] :=
  ((subscribe_rewrites_whole_file "b\n" "a" (by decide) (by decide)).1).trans
    (by decide)

/-- Claim C7 counterexample: the fetched listing lists id "b" before
id "a"; with an empty known set the diff keeps that page order, and
the notifier processes "b" before "a" — not the lexicographic order
["a", "b"]. -/
theorem notify_order_counterexample :
    newOffersOf [("b", ⟨"u1", "t1"⟩), ("a", ⟨"u2", "t2"⟩)] []
      = [("b", ⟨"u1", "t1"⟩), ("a", ⟨"u2", "t2"⟩)] ∧
    processedOrder (notify_new_offers (fun _ => none) (fun _ _ => true) "9\n"
      [("b", ⟨"u1", "t1"⟩), ("a", ⟨"u2", "t2"⟩)]) = ["b", "a"] ∧
    sortStrings ["b", "a"] = ["a", "b"] ∧
    (["b", "a"] : List String) ≠ ["a", "b"] := by
  decide

/-- Claim C7 amended: when there is at least one subscriber, the
notifier processes the new offers exactly in the order their ids appear
in the new-offer mapping — the fetched listing-page (dict insertion)
order — not in lexicographic id order. -/
theorem notify_processes_in_page_order (details : String → Option DetailPage)
    (sendOk : String → String → Bool) (subsContent : String)
    (new : List (String × Offer))
    (hs : load_subscribers subsContent ≠ []) :
    processedOrder (notify_new_offers details sendOk subsContent new)
      = new.map Prod.fst := by
  have hne : (load_subscribers subsContent).isEmpty = false :=
    List.isEmpty_eq_false.mpr hs
  induction new with
  | nil => simp [notify_new_offers, processedOrder, hne]
  | cons p ps ih =>
    have hsplit : notify_new_offers details sendOk subsContent (p :: ps)
        = (match details p.1 with
           | none => [Event.extractOffer p.1, Event.extractFailed p.1]
           | some page =>
             Event.extractOffer p.1 ::
               (load_subscribers subsContent).map (fun chat =>
                 if sendOk chat p.1 then
                   Event.send chat p.1
                     (build_message p.2 (parse_offer_details page))
                 else Event.sendFailed chat p.1))
          ++ notify_new_offers details sendOk subsContent ps := by
      simp [notify_new_offers, hne]
    rw [hsplit, processedOrder_append, ih]
    cases hd : details p.1 with
    | none => simp [processedOrder]
    | some page =>
      have hmap : processedOrder ((load_subscribers subsContent).map
          (fun chat =>
            if sendOk chat p.1 then
              Event.send chat p.1 (build_message p.2 (parse_offer_details page))
            else Event.sendFailed chat p.1)) = [] := by
        unfold processedOrder
        rw [List.filterMap_eq_nil_iff]
        intro a ha
        rcases List.mem_map.mp ha with ⟨chat, _, rfl⟩
        by_cases hsend : sendOk chat p.1 = true <;> simp [hsend]
      have hcons : processedOrder (Event.extractOffer p.1 ::
          (load_subscribers subsContent).map
          (fun chat =>
            if sendOk chat p.1 then
              Event.send chat p.1 (build_message p.2 (parse_offer_details page))
            else Event.sendFailed chat p.1)) = [p.1] := by
        unfold processedOrder at hmap ⊢
        rw [List.filterMap_cons]
        simp [hmap]
      rw [hcons]
      simp

/-- Closed instance of the amended C7: three new offers listed as "x",
"m", "c" are processed exactly in that page order. -/
theorem notify_processes_in_page_order_witness :
    processedOrder (notify_new_offers (fun _ => none) (fun _ _ => true) "9\n"
      [("x", ⟨"u", "t"⟩), ("m", ⟨"u2", "t2"⟩), ("c", ⟨"u3", "t3"⟩)])
      = ["x", "m", "c"] :=
  (notify_processes_in_page_order (fun _ => none) (fun _ _ => true) "9\n"
    [("x", ⟨"u", "t"⟩), ("m", ⟨"u2", "t2"⟩), ("c", ⟨"u3", "t3"⟩)]
    (by decide)).trans (by decide)

/-- Claim C8 counterexample: for the anchor href
"/immobiliensuche/immo-detail/123/wohnung/" (trailing slash) the
Fetcher stores the offer under key "123"
(`href.strip('/').split('/')[-2]`), but `build_message` re-derives the
id from the full url without stripping (`url.split('/')[-2]`), getting
"wohnung", and substitutes that into the apply template — not the key
under which the Fetcher stored the offer. -/
theorem apply_link_key_mismatch_counterexample :
    fetch_offers [⟨"/immobiliensuche/immo-detail/123/wohnung/", "T"⟩]
      = [("123",
          ⟨"https://www.saga.hamburg/immobiliensuche/immo-detail/123/wohnung/",
           "T"⟩)] ∧
    (build_message_lines
        ⟨"https://www.saga.hamburg/immobiliensuche/immo-detail/123/wohnung/",
         "T"⟩ (fun _ => none)).getLast?
      = some "📬 [Jetzt bewerben](https://tenant.immomio.com/de/apply/wohnung)" ∧
    ("wohnung" : String) ≠ "123" := by
  decide

/-- Claim C8 amended: the rendered message always ends with the
canonical detail-page URL line followed by an apply line built from the
fixed template and the second-to-last `/`-separated segment of the full
url string; that segment equals the Fetcher's key for the offer
whenever the href starts with `/`, does not end with `/`, and has at
least two segments after stripping. -/
theorem message_trailing_links :
    (∀ (data : Offer) (details : Dict), ∃ pre,
      build_message_lines data details
        = pre ++ ["🔗 [Anzeigen-Link](" ++ data.url ++ ")"]
            ++ ["📬 [Jetzt bewerben]("
                ++ ("https://tenant.immomio.com/de/apply/"
                    ++ msg_offer_id data.url) ++ ")"]) ∧
    (∀ href : String, href.data.head? = some '/' →
      href.data.getLast? ≠ some '/' →
      2 ≤ (pySplit '/' (pyStrip '/' href)).length →
      msg_offer_id ("https://www.saga.hamburg" ++ href)
        = fetch_offer_id href) := by
  constructor
  · intro data details
    exact ⟨_, rfl⟩
  · intro href h1 h2 h3
    rcases List.head?_eq_some_iff.mp h1 with ⟨t, ht⟩
    have hdnil : href.data.dropWhile (· == '/') ≠ [] := by
      intro hempty
      have hall := List.dropWhile_eq_nil_iff.mp hempty
      have hne : href.data ≠ [] := by rw [ht]; simp
      cases hlast : href.data.getLast? with
      | none => exact hne (List.getLast?_eq_none_iff.mp hlast)
      | some a =>
        rcases List.getLast?_eq_some_iff.mp hlast with ⟨ys, hys⟩
        have ham : a ∈ href.data := by rw [hys]; simp
        have ha : a = '/' := by simpa using hall a ham
        exact h2 (by rw [hlast, ha])
    have hstrip : stripBy (· == '/') href.data
        = href.data.dropWhile (· == '/') := by
      unfold stripBy
      have hlast2 : (href.data.dropWhile (· == '/')).getLast?
          = href.data.getLast? := getLast?_dropWhile hdnil
      have hhead : ∀ a,
          (href.data.dropWhile (· == '/')).reverse.head? = some a →
          (a == '/') = false := by
        intro a ha
        rw [List.head?_reverse, hlast2] at ha
        have hne : a ≠ '/' := by rintro rfl; exact h2 ha
        simpa using hne
      rw [dropWhile_eq_self_of_head hhead, List.reverse_reverse]
    have hdrop : href.data.dropWhile (· == '/')
        = t.dropWhile (· == '/') := by
      rw [ht]; simp [List.dropWhile_cons]
    have e1 : pyStrip '/' href = String.mk (t.dropWhile (· == '/')) := by
      unfold pyStrip
      rw [hstrip, hdrop]
    have hsplit_eq : pySplit '/' (pyStrip '/' href)
        = (splitCh '/' (t.dropWhile (· == '/'))).map String.mk := by
      rw [e1]; rfl
    have h3' : 2 ≤ (splitCh '/' (t.dropWhile (· == '/'))).length := by
      rw [hsplit_eq, List.length_map] at h3
      exact h3
    have hB : 2 ≤
        ((splitCh '/' (t.dropWhile (· == '/'))).map String.mk).length := by
      rw [List.length_map]; exact h3'
    have hurl : ("https://www.saga.hamburg" ++ href).data
        = "https://www.saga.hamburg".data ++ ('/' :: t) := by
      rw [String.data_append, ht]
    have hpre : splitCh '/' ("https://www.saga.hamburg".data)
        = ["https:".data, [], "www.saga.hamburg".data] := by decide
    have hsplit_url : splitCh '/' ("https://www.saga.hamburg" ++ href).data
        = ["https:".data, [], "www.saga.hamburg".data] ++ splitCh '/' t := by
      rw [hurl, splitCh_append, splitCh_cons_self, hpre]
      exact glueChunks_cons_nil _ _ _
    rcases splitCh_dropWhile '/' t with ⟨k, hkt⟩
    have hfetch : fetch_offer_id href
        = (idxNeg2 ((splitCh '/' (t.dropWhile (· == '/'))).map
            String.mk)).getD "" := by
      unfold fetch_offer_id
      rw [hsplit_eq]
    have hmsg : msg_offer_id ("https://www.saga.hamburg" ++ href)
        = (idxNeg2 ((splitCh '/' (t.dropWhile (· == '/'))).map
            String.mk)).getD "" := by
      unfold msg_offer_id pySplit
      rw [hsplit_url, hkt, ← List.append_assoc, List.map_append,
        idxNeg2_append _ _ hB]
    rw [hmsg, hfetch]

/-- Closed instance of the amended C8: for a slash-free-tail href the
id substituted by the message builder equals the Fetcher's key. -/
theorem message_trailing_links_witness :
    msg_offer_id
        ("https://www.saga.hamburg" ++ "/immobiliensuche/immo-detail/123/wohnung-55")
      = fetch_offer_id "/immobiliensuche/immo-detail/123/wohnung-55" :=
  message_trailing_links.2 "/immobiliensuche/immo-detail/123/wohnung-55"
    (by decide) (by decide) (by decide)
